import Mathlib

/-!
CHIP-8 interpreter core (`src/dev/main.c`, `src/dev/main.h`).

A shallow embedding of the call stack (`stackIsFull`, `stackIsEmpty`, `pop`,
`push`, `peek`, `createStack`) and of the interpreter (`incrementPC`, `fetch`,
`execute`) of the C sources.

Conventions of the embedding.

* C integers are natural numbers; every store into a `uint8_t` cell reduces
  modulo `256` and every store into a `uint16_t` cell modulo `65536`.  `int`
  and `unsigned` are 32 bits wide (the sources include `windows.h`), so a
  `uint16_t` or `uint8_t` operand is promoted to `int` before a comparison or
  an arithmetic operation; where a signed intermediate result can occur the
  computation is carried out in `Int`.
* `uint8_t* RAM` is a function from addresses to cell contents.  All indices
  used by the interpreter are below `RAMSIZE`.
* `uint16_t* array` of the stack is a function from indices to cell contents.
  The C code never checks an index against `capacity`; an index at or above
  `capacity` denotes the cell at that offset behind the allocation.
* `printf` calls are output only and are omitted.  The value returned by
  `rand()` is a parameter of `execute`.
-/

namespace Chip8

/-! ## Constants of `main.h` -/

abbrev RAMSIZE : Nat := 4096
abbrev STACK_BOTTOM : Nat := 0
abbrev STACK_TOP : Nat := 16
abbrev DELAY_TIMER : Nat := 0x3a
abbrev SOUND_TIMER : Nat := 0x3b
abbrev I_REG_H : Nat := 0x3c
abbrev I_REG_L : Nat := 0x3d
abbrev PROGRAM_COUNTER_H : Nat := 0x3e
abbrev PROGRAM_COUNTER_L : Nat := 0x3f
abbrev V0 : Nat := 0x40
abbrev VF : Nat := 0x4f
abbrev FONT_ADDRESS_L : Nat := 0x50
abbrev FONT_ADDRESS_H : Nat := 0x9f
abbrev PROGRAM_SPACE_START : Nat := 0x200

/-! ## Data model -/

/-- The `struct Stack` of `main.h`: `uint16_t top; unsigned capacity; uint16_t* array`. -/
structure Stack where
  top : Nat
  capacity : Nat
  array : Nat → Nat

/-- The memory `uint8_t* RAM`. -/
abbrev RAM : Type := Nat → Nat

/-- Every cell of the 4096-byte memory holds a `uint8_t` value. -/
def ByteRAM (ram : RAM) : Prop := ∀ a, a < RAMSIZE → ram a < 256

instance (ram : RAM) : Decidable (ByteRAM ram) := by
  unfold ByteRAM
  infer_instance

/-- Conversion of a signed intermediate result to `uint8_t`. -/
def toU8 (z : Int) : Nat := (z % 256).toNat

/-- The assignment `RAM[a] = v` to a `uint8_t` cell. -/
def setByte (ram : RAM) (a v : Nat) : RAM :=
  fun i => if i = a then v % 256 else ram i

/-- The assignment `RAM[a] = z` of a signed (`int`) result to a `uint8_t` cell. -/
def setByteInt (ram : RAM) (a : Nat) (z : Int) : RAM :=
  fun i => if i = a then toU8 z else ram i

/-- The assignment `array[t] = v` to a `uint16_t` cell. -/
def setWord (array : Nat → Nat) (t v : Nat) : Nat → Nat :=
  fun i => if i = t then v % 65536 else array i

/-! ## Stack functions -/

/-- Source `stackIsFull`: `return stack->top == stack->capacity-1;` where
`capacity-1` is computed in `unsigned` (32 bits). -/
def stackIsFull (stack : Stack) : Nat :=
  if stack.top = (stack.capacity + 4294967295) % 4294967296 then 1 else 0

/-- Source `stackIsEmpty`: `return stack->top == -1;` where the `uint16_t`
field `top` is promoted to `int` before it is compared with `-1`. -/
def stackIsEmpty (stack : Stack) : Nat :=
  if (stack.top : Int) = -1 then 1 else 0

/-- Source `pop`: returns the value and the stack after the call.  The failure
result `-1` is `65535` as `uint16_t`; `top--` wraps modulo `65536`. -/
def pop (stack : Stack) : Nat × Stack :=
  if stackIsEmpty stack ≠ 0 then
    (65535, stack)
  else
    (stack.array stack.top, { stack with top := (stack.top + 65535) % 65536 })

/-- Source `push`: returns the value and the stack after the call.  The failure
result `-1` is `65535` as `uint16_t`; `++top` wraps modulo `65536`. -/
def push (stack : Stack) (value : Nat) : Nat × Stack :=
  if stackIsFull stack ≠ 0 then
    (65535, stack)
  else
    let t := (stack.top + 1) % 65536
    let stack1 : Stack := { stack with top := t, array := setWord stack.array t value }
    (stack1.array stack1.top, stack1)

/-- Source `peek`. -/
def peek (stack : Stack) : Nat :=
  if stackIsEmpty stack ≠ 0 then 65535 else stack.array stack.top

/-- Source `createStack`: `top = -1` is `65535` as `uint16_t`; the cells
returned by `malloc` are not initialised, their contents are the argument
`cells`. -/
def createStack (capacity : Nat) (cells : Nat → Nat) : Stack :=
  { top := 65535, capacity := capacity % 4294967296, array := cells }

/-! ## Program execution functions -/

/-- Source `incrementPC`. -/
def incrementPC (ram : RAM) : RAM :=
  if ram PROGRAM_COUNTER_L ≥ 0xfe then
    let ram1 := setByte ram PROGRAM_COUNTER_L 0
    setByte ram1 PROGRAM_COUNTER_H (ram1 PROGRAM_COUNTER_H + 1)
  else
    setByte ram PROGRAM_COUNTER_L (ram PROGRAM_COUNTER_L + 2)

/-- Source `fetch`: the returned instruction and the memory after the call. -/
def fetch (ram : RAM) : Nat × RAM :=
  let instruction := ((ram PROGRAM_COUNTER_H <<< 8) &&& ram PROGRAM_COUNTER_L) % 65536
  (instruction, incrementPC ram)

/-- The index expression `(0x40 | ((opcode & 0x0f00) >> 8))` of `execute`. -/
def regX (opcode : Nat) : Nat := 0x40 ||| ((opcode &&& 0x0f00) >>> 8)

/-- The index expression `(0x40 | ((opcode & 0x00f0) >> 4))` of cases 5 and 9 of
`execute`. -/
def regY4 (opcode : Nat) : Nat := 0x40 ||| ((opcode &&& 0x00f0) >>> 4)

/-- The index expression `(0x40 | ((opcode & 0x00f0) >> 8))` of case 8 of
`execute`. -/
def regY8 (opcode : Nat) : Nat := 0x40 ||| ((opcode &&& 0x00f0) >>> 8)

/-- Case 8 of `execute` (the inner `switch (second)`): the memory after the
instruction. -/
def execute8 (ram : RAM) (opcode : Nat) : RAM :=
  let second := opcode &&& 0x000f
  match second with
  | 0 => setByte ram (regX opcode) (ram (regY8 opcode))
  | 1 => setByte ram (regX opcode) (ram (regX opcode) ||| ram (regY8 opcode))
  | 2 => setByte ram (regX opcode) (ram (regX opcode) &&& ram (regY8 opcode))
  | 3 => setByte ram (regX opcode) (ram (regX opcode) ^^^ ram (regY8 opcode))
  | 4 =>
    let temp1 := ram (regX opcode)
    let temp2 := ram (regY8 opcode)
    if (0xff : Int) - (temp1 : Int) < (temp2 : Int) then
      let ram1 := setByte ram (regX opcode) (ram (regX opcode) + temp2)
      setByte ram1 VF 1
    else
      let ram1 := setByte ram (regX opcode) (ram (regX opcode) + temp2)
      setByte ram1 VF 0
  | 5 =>
    let temp1 := ram (regX opcode)
    let temp2 := ram (regY8 opcode)
    if temp1 > temp2 then
      let ram1 := setByteInt ram (regX opcode) ((ram (regX opcode) : Int) - (temp2 : Int))
      setByte ram1 VF 1
    else
      let ram1 := setByteInt ram (regX opcode) ((ram (regX opcode) : Int) - (temp2 : Int))
      setByte ram1 VF 0
  | 6 =>
    let ram1 := setByte ram (regX opcode) (ram (regY8 opcode) >>> 1)
    setByte ram1 VF (ram1 (regY8 opcode) &&& 0x01)
  | 7 =>
    let temp1 := ram (regX opcode)
    let temp2 := ram (regY8 opcode)
    if temp2 < temp1 then
      let ram1 := setByteInt ram (regX opcode) ((temp2 : Int) - (temp1 : Int))
      setByte ram1 VF 1
    else
      let ram1 := setByteInt ram (regX opcode) ((temp2 : Int) - (temp1 : Int))
      setByte ram1 VF 0
  | 0xE =>
    let ram1 := setByte ram (regX opcode) (ram (regY8 opcode) <<< 1)
    setByte ram1 VF (ram1 (regY8 opcode) &&& 0x20)
  | _ => ram

/-- Source `execute`: the returned value, the memory and the stack after the
call.  `rnd` is the value returned by `rand()` in case `0xC`. -/
def execute (rnd : Nat) (ram : RAM) (stack : Stack) (opcode : Nat) : Nat × RAM × Stack :=
  let first := (opcode &&& 0xf000) >>> 12
  match first with
  | 0 =>
    if opcode = 0x00E0 then (1, ram, stack)
    else if opcode = 0x00EE then
      let p1 := pop stack
      let ram1 := setByte ram PROGRAM_COUNTER_H p1.1
      let p2 := pop p1.2
      let ram2 := setByte ram1 PROGRAM_COUNTER_L p2.1
      (1, ram2, p2.2)
    else (1, ram, stack)
  | 1 =>
    let ram1 := setByte ram PROGRAM_COUNTER_H ((opcode &&& 0x0f00) >>> 8)
    (1, setByte ram1 PROGRAM_COUNTER_L (opcode &&& 0x00ff), stack)
  | 2 =>
    let s1 := (push stack (ram PROGRAM_COUNTER_L)).2
    let s2 := (push s1 (ram PROGRAM_COUNTER_H)).2
    let ram1 := setByte ram PROGRAM_COUNTER_H ((opcode &&& 0x0f00) >>> 8)
    (1, setByte ram1 PROGRAM_COUNTER_L (opcode &&& 0x00ff), s2)
  | 3 =>
    if ram (regX opcode) = (opcode &&& 0x00ff) then (1, incrementPC ram, stack)
    else (1, ram, stack)
  | 4 =>
    if ram (regX opcode) ≠ (opcode &&& 0x00ff) then (1, incrementPC ram, stack)
    else (1, ram, stack)
  | 5 =>
    if ram (regX opcode) = ram (regY4 opcode) then (1, incrementPC ram, stack)
    else (1, ram, stack)
  | 6 => (1, setByte ram (regX opcode) (opcode &&& 0x00ff), stack)
  | 7 => (1, setByte ram (regX opcode) (ram (regX opcode) + (opcode &&& 0x00ff)), stack)
  | 8 => (1, execute8 ram opcode, stack)
  | 9 =>
    if ram (regX opcode) ≠ ram (regY4 opcode) then (1, incrementPC ram, stack)
    else (1, ram, stack)
  | 0xA =>
    let ram1 := setByte ram I_REG_H ((opcode &&& 0x0f00) >>> 8)
    (1, setByte ram1 I_REG_L (opcode &&& 0x00ff), stack)
  | 0xB =>
    -- `temp1 = (opcode & 0x0fff) + RAM[V0];` is computed and never used
    let ram1 := setByte ram PROGRAM_COUNTER_H ((opcode &&& 0x0f00) >>> 8)
    (1, setByte ram1 PROGRAM_COUNTER_L (opcode &&& 0x00ff), stack)
  | 0xC => (1, setByte ram (regX opcode) ((rnd % 256) &&& ((opcode &&& 0x00ff) % 256)), stack)
  | _ => (1, ram, stack)

/-- The 16-bit program counter formed from `PROGRAM_COUNTER_H:PROGRAM_COUNTER_L`. -/
def programCounter (ram : RAM) : Nat :=
  ram PROGRAM_COUNTER_H * 256 + ram PROGRAM_COUNTER_L

/-- The number of entries a stack holds: `top + 1` in `uint16_t` arithmetic
(`top = 65535`, the `-1` of `createStack`, is the empty stack). -/
def depth (stack : Stack) : Nat := (stack.top + 1) % 65536

/-- A memory whose program counter is `0x0200` and whose program space starts
with the instruction bytes `0x12 0x34`. -/
def fetchRAM : RAM :=
  fun a => if a = PROGRAM_COUNTER_H then 0x02 else if a = 0x200 then 0x12
    else if a = 0x201 then 0x34 else 0

/-- A memory whose program counter is `0x0202` (the state right after the
instruction at `0x200` was fetched) and whose other cells are zero. -/
def callRAM : RAM :=
  fun a => if a = PROGRAM_COUNTER_H then 0x02 else if a = PROGRAM_COUNTER_L then 0x02 else 0

/-! ## Instruction sequences -/

/-- One instruction executed on a machine state (memory and stack). -/
def step (rnd : Nat) (st : RAM × Stack) (opcode : Nat) : RAM × Stack :=
  ((execute rnd st.1 st.2 opcode).2.1, (execute rnd st.1 st.2 opcode).2.2)

/-- The two program-counter bytes, high byte first. -/
def pcBytes (ram : RAM) : Nat × Nat :=
  (ram PROGRAM_COUNTER_H, ram PROGRAM_COUNTER_L)

/-- A call site: the program-counter bytes the call instruction is executed
with, and the target `NNN` of the call. -/
structure Call where
  pcH : Nat
  pcL : Nat
  target : Nat

/-- The program-counter bytes of a call site. -/
def Call.pc (c : Call) : Nat × Nat := (c.pcH, c.pcL)

/-- A sequence of nested calls.  What runs between two calls is represented by
its effect on the program counter: each `2NNN` is executed in a state whose
program-counter bytes are those of its call site. -/
def callSeq (rnd : Nat) : List Call → RAM × Stack → RAM × Stack
  | [], st => st
  | c :: rest, st =>
    callSeq rnd rest
      (step rnd (setByte (setByte st.1 PROGRAM_COUNTER_H c.pcH) PROGRAM_COUNTER_L c.pcL, st.2)
        (0x2000 + c.target))

/-- The state after `k` executions of `00EE`. -/
def afterReturns (rnd : Nat) : Nat → RAM × Stack → RAM × Stack
  | 0, st => st
  | k + 1, st => step rnd (afterReturns rnd k st) 0x00EE

/-- The program-counter bytes after the first, second, ..., `k`-th of `k`
executions of `00EE`. -/
def returnedPCs (rnd : Nat) (k : Nat) (st : RAM × Stack) : List (Nat × Nat) :=
  (List.range k).map (fun i => pcBytes (afterReturns rnd (i + 1) st).1)

/-- Nine nested call sites at `0x0202`, `0x0204`, ..., `0x0212`, each calling
`0x300`. -/
def nineCalls : List Call :=
  (List.range 9).map (fun i => { pcH := 0x02, pcL := 2 * (i + 1), target := 0x300 })

/-- Eight nested call sites at `0x0202`, `0x0204`, ..., `0x0210`, each calling
`0x300`. -/
def eightCalls : List Call :=
  (List.range 8).map (fun i => { pcH := 0x02, pcL := 2 * (i + 1), target := 0x300 })

/-- A stack of capacity 16 that holds 16 entries. -/
def fullStack : Stack := { top := 15, capacity := 16, array := fun i => i }

/-- A memory whose program counter is the odd address `0x02FF` (reached by the
jump `12FF`) and whose other cells are zero. -/
def oddPCRAM : RAM :=
  fun a => if a = PROGRAM_COUNTER_H then 0x02 else if a = PROGRAM_COUNTER_L then 0xFF else 0

/-- A memory with `V0 = 0`, `V1 = 1`, `V2 = 5` and every other cell zero. -/
def aluRAM : RAM :=
  fun a => if a = 0x41 then 1 else if a = 0x42 then 5 else 0

/-- A memory with `V0 = 0x20` and every other cell zero. -/
def flagRAM : RAM := fun a => if a = 0x40 then 0x20 else 0

/-- A memory with `V0 = 5` and every other cell zero. -/
def jumpRAM : RAM := fun a => if a = 0x40 then 5 else 0

/-- The 16-bit index register formed from `I_REG_H:I_REG_L`. -/
def indexRegister (ram : RAM) : Nat :=
  ram I_REG_H * 256 + ram I_REG_L

/-- A memory whose index register is `0x0300` and whose other cells are zero. -/
def bcdRAM : RAM := fun a => if a = I_REG_H then 0x03 else 0

/-- A memory with `V0 = 5`, `V1 = 5`, `V2 = 1`, `V3 = 9` and every other cell
zero. -/
def subRAM : RAM :=
  fun a => if a = 0x40 then 5 else if a = 0x41 then 5 else if a = 0x42 then 1
    else if a = 0x43 then 9 else 0

/-- A memory with `V0 = 0x81` and every other cell zero. -/
def shiftRAM : RAM := fun a => if a = 0x40 then 0x81 else 0

/-! ## Memory indices used by `execute` -/

/-- The `RAM` index expressions evaluated by `incrementPC`, in program order. -/
def incrementPCIndices (ram : RAM) : List Nat :=
  if ram PROGRAM_COUNTER_L ≥ 0xfe then
    [PROGRAM_COUNTER_L, PROGRAM_COUNTER_L, PROGRAM_COUNTER_H]
  else
    [PROGRAM_COUNTER_L, PROGRAM_COUNTER_L]

/-- The `RAM` index expressions evaluated by case 8 of `execute`. -/
def execute8Indices (opcode : Nat) : List Nat :=
  let second := opcode &&& 0x000f
  match second with
  | 0 => [regX opcode, regY8 opcode]
  | 1 => [regX opcode, regY8 opcode]
  | 2 => [regX opcode, regY8 opcode]
  | 3 => [regX opcode, regY8 opcode]
  | 4 => [regX opcode, regY8 opcode, regX opcode, VF]
  | 5 => [regX opcode, regY8 opcode, regX opcode, VF]
  | 6 => [regX opcode, regY8 opcode, VF, regY8 opcode]
  | 7 => [regX opcode, regY8 opcode, regX opcode, VF]
  | 0xE => [regX opcode, regY8 opcode, VF, regY8 opcode]
  | _ => []

/-- The `RAM` index expressions evaluated by `execute` on the path it takes
(reads and writes, including those of `incrementPC`). -/
def executeIndices (ram : RAM) (opcode : Nat) : List Nat :=
  let first := (opcode &&& 0xf000) >>> 12
  match first with
  | 0 =>
    if opcode = 0x00E0 then []
    else if opcode = 0x00EE then [PROGRAM_COUNTER_H, PROGRAM_COUNTER_L]
    else []
  | 1 => [PROGRAM_COUNTER_H, PROGRAM_COUNTER_L]
  | 2 => [PROGRAM_COUNTER_L, PROGRAM_COUNTER_H, PROGRAM_COUNTER_H, PROGRAM_COUNTER_L]
  | 3 =>
    if ram (regX opcode) = (opcode &&& 0x00ff) then regX opcode :: incrementPCIndices ram
    else [regX opcode]
  | 4 =>
    if ram (regX opcode) ≠ (opcode &&& 0x00ff) then regX opcode :: incrementPCIndices ram
    else [regX opcode]
  | 5 =>
    if ram (regX opcode) = ram (regY4 opcode) then
      regX opcode :: regY4 opcode :: incrementPCIndices ram
    else [regX opcode, regY4 opcode]
  | 6 => [regX opcode]
  | 7 => [regX opcode]
  | 8 => execute8Indices opcode
  | 9 =>
    if ram (regX opcode) ≠ ram (regY4 opcode) then
      regX opcode :: regY4 opcode :: incrementPCIndices ram
    else [regX opcode, regY4 opcode]
  | 0xA => [I_REG_H, I_REG_L]
  | 0xB => [V0, PROGRAM_COUNTER_H, PROGRAM_COUNTER_L]
  | 0xC => [regX opcode]
  | _ => []

/-! ## The instruction loop of `main` -/

/-- One iteration of the loop of `main`: `opcode = fetch(RAM);
execute(RAM, stack, opcode);`. -/
def cycle (rnd : Nat) (st : RAM × Stack) : RAM × Stack :=
  step rnd ((fetch st.1).2, st.2) (fetch st.1).1

/-- The state after `n` iterations of the loop; `rnd i` is the value `rand()`
would return in iteration `i`. -/
def run (rnd : Nat → Nat) : Nat → RAM × Stack → RAM × Stack
  | 0, st => st
  | n + 1, st => cycle (rnd n) (run rnd n st)

/-- A memory with the registers of `fetchRAM` (program counter `0x0200`) and a
different program: the bytes `0xAB 0xCD` at `0x200`, `0x201` and `0xFF` at
`0xFFF`. -/
def otherProgramRAM : RAM :=
  fun a => if a = PROGRAM_COUNTER_H then 0x02 else if a = 0x200 then 0xAB
    else if a = 0x201 then 0xCD else if a = 0xFFF then 0xFF else 0

/-! ## Bit-field extraction -/

theorem shiftRight_land (a b n : Nat) : (a &&& b) >>> n = (a >>> n) &&& (b >>> n) := by
  apply Nat.eq_of_testBit_eq
  intro i
  simp [Nat.testBit_shiftRight]

theorem first_nibble (op : Nat) : (op &&& 0xf000) >>> 12 = (op / 4096) % 16 := by
  rw [shiftRight_land, Nat.shiftRight_eq_div_pow]
  exact Nat.and_pow_two_sub_one_eq_mod (op / 2 ^ 12) 4

theorem second_nibble (op : Nat) : (op &&& 0x0f00) >>> 8 = (op / 256) % 16 := by
  rw [shiftRight_land, Nat.shiftRight_eq_div_pow]
  exact Nat.and_pow_two_sub_one_eq_mod (op / 2 ^ 8) 4

theorem third_nibble (op : Nat) : (op &&& 0x00f0) >>> 4 = (op / 16) % 16 := by
  rw [shiftRight_land, Nat.shiftRight_eq_div_pow]
  exact Nat.and_pow_two_sub_one_eq_mod (op / 2 ^ 4) 4

theorem third_nibble_shift8 (op : Nat) : (op &&& 0x00f0) >>> 8 = 0 := by
  rw [shiftRight_land]
  simp

theorem low_byte (op : Nat) : op &&& 0x00ff = op % 256 :=
  Nat.and_pow_two_sub_one_eq_mod op 8

theorem low_nibble (op : Nat) : op &&& 0x000f = op % 16 :=
  Nat.and_pow_two_sub_one_eq_mod op 4

theorem lor_0x40 (x : Nat) (h : x < 16) : 0x40 ||| x = 0x40 + x := by
  interval_cases x <;> rfl

theorem regX_eq (op : Nat) : regX op = 0x40 + (op / 256) % 16 := by
  unfold regX
  rw [second_nibble]
  exact lor_0x40 _ (Nat.mod_lt _ (by decide))

theorem regY4_eq (op : Nat) : regY4 op = 0x40 + (op / 16) % 16 := by
  unfold regY4
  rw [third_nibble]
  exact lor_0x40 _ (Nat.mod_lt _ (by decide))

theorem regY8_eq (op : Nat) : regY8 op = V0 := by
  unfold regY8
  rw [third_nibble_shift8]
  rfl

/-! ## Basic facts about the stack functions -/

theorem stackIsEmpty_eq_zero (s : Stack) : stackIsEmpty s = 0 := by
  unfold stackIsEmpty
  have h : ¬ ((s.top : Int) = -1) := by omega
  simp [h]

theorem pop_eq (s : Stack) :
    pop s = (s.array s.top, { s with top := (s.top + 65535) % 65536 }) := by
  simp [pop, stackIsEmpty_eq_zero]

theorem peek_eq (s : Stack) : peek s = s.array s.top := by
  simp [peek, stackIsEmpty_eq_zero]

theorem push_of_not_full (s : Stack) (v : Nat) (h : stackIsFull s = 0) :
    push s v = (v % 65536,
      { s with top := (s.top + 1) % 65536,
               array := setWord s.array ((s.top + 1) % 65536) v }) := by
  simp [push, h, setWord]

theorem push_of_full (s : Stack) (v : Nat) (h : stackIsFull s = 1) :
    push s v = (65535, s) := by
  simp [push, h]

theorem byteRAM_callRAM : ByteRAM callRAM := by
  intro a _
  unfold callRAM
  split_ifs <;> decide

/-! ## Unfolding `execute` by instruction class -/

theorem execute_call (rnd : Nat) (ram : RAM) (s : Stack) (op : Nat)
    (h : (op / 4096) % 16 = 2) :
    execute rnd ram s op
      = (1, setByte (setByte ram PROGRAM_COUNTER_H ((op / 256) % 16))
              PROGRAM_COUNTER_L (op % 256),
            (push (push s (ram PROGRAM_COUNTER_L)).2 (ram PROGRAM_COUNTER_H)).2) := by
  simp only [execute, first_nibble, second_nibble, low_byte, h]

theorem execute_return (rnd : Nat) (ram : RAM) (s : Stack) :
    execute rnd ram s 0x00EE
      = (1, setByte (setByte ram PROGRAM_COUNTER_H (pop s).1)
              PROGRAM_COUNTER_L (pop (pop s).2).1,
            (pop (pop s).2).2) := by
  simp [execute]

/-! ## The stack contract -/

/-- C3 (code defect): on the empty stack returned by `createStack(16)` the
emptiness test of `pop` does not fire (`stackIsEmpty` returns 0, because the
promoted `top` is 65535 and never `-1`); `pop` returns the cell at index 65535
instead of the failure result and moves `top` from 65535 to 65534. -/
theorem pop_createStack_changes_top (cells : Nat → Nat) :
    stackIsEmpty (createStack 16 cells) = 0 ∧
    pop (createStack 16 cells)
      = (cells 65535, { top := 65534, capacity := 16, array := cells }) ∧
    (pop (createStack 16 cells)).2.top ≠ (createStack 16 cells).top := by
  refine ⟨stackIsEmpty_eq_zero _, ?_, ?_⟩
  · rw [pop_eq]
    simp only [createStack]
  · rw [pop_eq]
    simp only [createStack]
    norm_num

/-- C4: on a stack of capacity 16 that holds 16 entries (indices 0..15, so
`top = 15`) `push` returns the failure result 65535 (`-1` as `uint16_t`) and
the stack after the call is the stack before it. -/
theorem push_full_fails (s : Stack) (v : Nat) (hcap : s.capacity = 16) (htop : s.top = 15) :
    push s v = (65535, s) := by
  apply push_of_full
  simp [stackIsFull, hcap, htop]

theorem push_full_fails_witness :
    push { top := 15, capacity := 16, array := fun i => i } 7
      = (65535, { top := 15, capacity := 16, array := fun i => i }) :=
  push_full_fails { top := 15, capacity := 16, array := fun i => i } 7 rfl rfl

/-- C5: on a stack that is not full, for a 16-bit value `v`: `push` returns `v`;
`peek` on the resulting stack returns `v` (`peek` yields a value only, it has
no effect on the stack); `pop` on the resulting stack returns `v`, restores
`top` and `capacity`, and leaves every cell other than the one `push` wrote as
it was before the push, in particular all entries `i < depth s` stored
before. -/
theorem push_peek_pop (s : Stack) (v : Nat) (hfull : stackIsFull s = 0)
    (htop : s.top < 65536) (hv : v < 65536) :
    (push s v).1 = v ∧
    peek (push s v).2 = v ∧
    (pop (push s v).2).1 = v ∧
    (pop (push s v).2).2.top = s.top ∧
    (pop (push s v).2).2.capacity = s.capacity ∧
    (∀ i, i ≠ (s.top + 1) % 65536 → (pop (push s v).2).2.array i = s.array i) ∧
    (∀ i, i < depth s → (pop (push s v).2).2.array i = s.array i) := by
  rw [push_of_not_full s v hfull, pop_eq, peek_eq]
  have hv2 : v % 65536 = v := Nat.mod_eq_of_lt hv
  refine ⟨hv2, ?_, ?_, ?_, rfl, ?_, ?_⟩
  · simp [setWord, hv2]
  · simp [setWord, hv2]
  · show ((s.top + 1) % 65536 + 65535) % 65536 = s.top
    omega
  · intro i hi
    simp [setWord, hi]
  · intro i hi
    have hne : i ≠ (s.top + 1) % 65536 := by
      unfold depth at hi
      omega
    simp [setWord, hne]

theorem push_peek_pop_witness :
    (push (createStack 16 (fun _ => 0)) 0x1234).1 = 0x1234 ∧
    peek (push (createStack 16 (fun _ => 0)) 0x1234).2 = 0x1234 ∧
    (pop (push (createStack 16 (fun _ => 0)) 0x1234).2).1 = 0x1234 ∧
    (pop (push (createStack 16 (fun _ => 0)) 0x1234).2).2.top = 65535 :=
  have h := push_peek_pop (createStack 16 (fun _ => 0)) 0x1234 (by decide) (by decide)
    (by decide)
  ⟨h.1, h.2.1, h.2.2.1, h.2.2.2.1⟩

/-! ## Fetch -/

theorem shiftLeft8_land_byte (a b : Nat) (hb : b < 256) : (a <<< 8) &&& b = 0 := by
  apply Nat.eq_of_testBit_eq
  intro i
  rw [Nat.testBit_and, Nat.testBit_shiftLeft, Nat.zero_testBit]
  by_cases h : 8 ≤ i
  · have hlt : b < 2 ^ i :=
      lt_of_lt_of_le hb (by
        have := Nat.pow_le_pow_right (show 0 < 2 by decide) h
        simpa using this)
    rw [Nat.testBit_lt_two_pow hlt, Bool.and_false]
  · simp [h]

theorem fetch_instruction_eq_zero (ram : RAM) (hL : ram PROGRAM_COUNTER_L < 256) :
    (fetch ram).1 = 0 := by
  simp only [fetch, shiftLeft8_land_byte _ _ hL]

/-- C1 (code defect): with the program counter at `0x0200` and the bytes
`0x12 0x34` stored at `0x200`, `0x201`, `fetch` returns 0, not the instruction
word `0x1234`: it combines the two program-counter bytes with `&` and never
reads the memory the program counter addresses. -/
theorem fetch_misses_instruction_word :
    programCounter fetchRAM = 0x200 ∧
    programCounter fetchRAM + 1 < RAMSIZE ∧
    fetchRAM (programCounter fetchRAM) * 256 + fetchRAM (programCounter fetchRAM + 1)
      = 0x1234 ∧
    (fetch fetchRAM).1 = 0 := by
  decide

/-! ## Call and return -/

/-- C2: for a target `nnn`, a byte memory and a stack of capacity 16 that holds
at most 14 entries, executing `2NNN` sets the program counter to `nnn`, and
executing `00EE` in the resulting state restores both program-counter bytes
to their values before the call and restores `top` (hence the depth). -/
theorem call_then_return (rnd rnd2 : Nat) (ram : RAM) (s : Stack) (nnn : Nat)
    (hn : nnn < 4096) (hram : ByteRAM ram) (hcap : s.capacity = 16)
    (htop : s.top < 65536) (hroom : depth s ≤ 14) :
    programCounter (execute rnd ram s (0x2000 + nnn)).2.1 = nnn ∧
    (execute rnd2 (execute rnd ram s (0x2000 + nnn)).2.1
        (execute rnd ram s (0x2000 + nnn)).2.2 0x00EE).2.1 PROGRAM_COUNTER_H
      = ram PROGRAM_COUNTER_H ∧
    (execute rnd2 (execute rnd ram s (0x2000 + nnn)).2.1
        (execute rnd ram s (0x2000 + nnn)).2.2 0x00EE).2.1 PROGRAM_COUNTER_L
      = ram PROGRAM_COUNTER_L ∧
    (execute rnd2 (execute rnd ram s (0x2000 + nnn)).2.1
        (execute rnd ram s (0x2000 + nnn)).2.2 0x00EE).2.2.top = s.top ∧
    depth (execute rnd2 (execute rnd ram s (0x2000 + nnn)).2.1
        (execute rnd ram s (0x2000 + nnn)).2.2 0x00EE).2.2 = depth s := by
  have hH : ram PROGRAM_COUNTER_H < 256 := hram _ (by decide)
  have hL : ram PROGRAM_COUNTER_L < 256 := hram _ (by decide)
  have hop : ((0x2000 + nnn) / 4096) % 16 = 2 := by omega
  have hf1 : stackIsFull s = 0 := by
    unfold depth at hroom
    have : s.top ≠ 15 := by omega
    simp [stackIsFull, hcap, this]
  have hf2 : stackIsFull
      { s with top := (s.top + 1) % 65536,
               array := setWord s.array ((s.top + 1) % 65536) (ram PROGRAM_COUNTER_L) } = 0 := by
    unfold depth at hroom
    have : (s.top + 1) % 65536 ≠ 15 := by omega
    simp [stackIsFull, hcap, this]
  rw [execute_call rnd ram s _ hop, execute_return, push_of_not_full s _ hf1,
    push_of_not_full _ _ hf2]
  unfold depth at hroom ⊢
  have e1 : ((s.top + 1) % 65536 + 1) % 65536 = (s.top + 1) % 65536 + 1 := by omega
  have e2 : ((s.top + 1) % 65536 + 1 + 65535) % 65536 = (s.top + 1) % 65536 := by omega
  have e3 : ((s.top + 1) % 65536 + 65535) % 65536 = s.top := by omega
  have hH16 : ram PROGRAM_COUNTER_H % 65536 = ram PROGRAM_COUNTER_H :=
    Nat.mod_eq_of_lt (by omega)
  have hL16 : ram PROGRAM_COUNTER_L % 65536 = ram PROGRAM_COUNTER_L :=
    Nat.mod_eq_of_lt (by omega)
  have hnH : (0x2000 + nnn) / 256 % 16 % 256 = nnn / 256 := by omega
  have hnL : (0x2000 + nnn) % 256 % 256 = nnn % 256 := by omega
  simp only [pop_eq, e1, e2, e3]
  generalize (s.top + 1) % 65536 = t
  refine ⟨?_, ?_, ?_, trivial, trivial⟩
  · have hne : PROGRAM_COUNTER_H ≠ PROGRAM_COUNTER_L := by decide
    simp only [programCounter, setByte, hnH, hnL, if_neg hne, if_true]
    omega
  · simp [setByte, setWord, hH16, Nat.mod_eq_of_lt hH]
  · simp [setByte, setWord, hL16, Nat.mod_eq_of_lt hL]

theorem call_then_return_witness :
    programCounter (execute 0 callRAM (createStack 16 (fun _ => 0)) (0x2000 + 0x300)).2.1
      = 0x300 ∧
    (execute 0 (execute 0 callRAM (createStack 16 (fun _ => 0)) (0x2000 + 0x300)).2.1
        (execute 0 callRAM (createStack 16 (fun _ => 0)) (0x2000 + 0x300)).2.2
        0x00EE).2.1 PROGRAM_COUNTER_H = callRAM PROGRAM_COUNTER_H :=
  have h := call_then_return 0 0 callRAM (createStack 16 (fun _ => 0)) 0x300 (by decide)
    byteRAM_callRAM rfl (by decide) (by decide)
  ⟨h.1, h.2.1⟩

theorem returnedPCs_succ (rnd k : Nat) (st : RAM × Stack) :
    returnedPCs rnd (k + 1) st
      = returnedPCs rnd k st ++ [pcBytes (afterReturns rnd (k + 1) st).1] := by
  simp [returnedPCs, List.range_succ]

theorem step_call (rnd : Nat) (ram : RAM) (s : Stack) (c : Call)
    (hcap : s.capacity = 16) (hroom : depth s ≤ 14) (hH : c.pcH < 256) (hL : c.pcL < 256)
    (ht : c.target < 4096) :
    (step rnd (setByte (setByte ram PROGRAM_COUNTER_H c.pcH) PROGRAM_COUNTER_L c.pcL, s)
        (0x2000 + c.target)).2
      = { top := depth s + 1, capacity := 16,
          array := setWord (setWord s.array (depth s) c.pcL) (depth s + 1) c.pcH } := by
  have hop : ((0x2000 + c.target) / 4096) % 16 = 2 := by omega
  have hf1 : stackIsFull s = 0 := by
    unfold depth at hroom
    have : s.top ≠ 15 := by omega
    simp [stackIsFull, hcap, this]
  have hf2 : stackIsFull
      { s with top := (s.top + 1) % 65536,
               array := setWord s.array ((s.top + 1) % 65536)
                 (setByte (setByte ram PROGRAM_COUNTER_H c.pcH) PROGRAM_COUNTER_L c.pcL
                   PROGRAM_COUNTER_L) } = 0 := by
    unfold depth at hroom
    have : (s.top + 1) % 65536 ≠ 15 := by omega
    simp [stackIsFull, hcap, this]
  have e1 : ((s.top + 1) % 65536 + 1) % 65536 = (s.top + 1) % 65536 + 1 := by
    unfold depth at hroom
    omega
  simp only [step]
  rw [execute_call _ _ _ _ hop, push_of_not_full s _ hf1, push_of_not_full _ _ hf2]
  simp only [e1, depth, hcap]
  have hne : PROGRAM_COUNTER_H ≠ PROGRAM_COUNTER_L := by decide
  have hwL : setWord s.array ((s.top + 1) % 65536)
      (setByte (setByte ram PROGRAM_COUNTER_H c.pcH) PROGRAM_COUNTER_L c.pcL PROGRAM_COUNTER_L)
      = setWord s.array ((s.top + 1) % 65536) c.pcL := by
    funext i
    simp only [setWord, setByte, if_true]
    split_ifs
    · omega
    · rfl
  rw [hwL]
  congr 1
  funext i
  simp only [setWord, setByte, if_neg hne, if_true]
  split_ifs <;> first | rfl | omega

theorem step_return (rnd : Nat) (ram : RAM) (s : Stack) :
    step rnd (ram, s) 0x00EE
      = (setByte (setByte ram PROGRAM_COUNTER_H (s.array s.top)) PROGRAM_COUNTER_L
            (s.array ((s.top + 65535) % 65536)),
          { s with top := ((s.top + 65535) % 65536 + 65535) % 65536 }) := by
  simp only [step, execute_return, pop_eq]

theorem nested_calls_aux (rnd : Nat) (calls : List Call) :
    ∀ (ram : RAM) (s : Stack), s.capacity = 16 → s.top < 65536 →
      depth s + 2 * calls.length ≤ 16 →
      (∀ c ∈ calls, c.pcH < 256 ∧ c.pcL < 256 ∧ c.target < 4096) →
      returnedPCs rnd calls.length (callSeq rnd calls (ram, s)) = (calls.map Call.pc).reverse ∧
      (afterReturns rnd calls.length (callSeq rnd calls (ram, s))).2.top = s.top ∧
      (afterReturns rnd calls.length (callSeq rnd calls (ram, s))).2.capacity = 16 ∧
      ∀ i, i < depth s →
        (afterReturns rnd calls.length (callSeq rnd calls (ram, s))).2.array i = s.array i := by
  induction calls with
  | nil =>
    intro ram s hcap _ _ _
    simp [returnedPCs, callSeq, afterReturns, hcap]
  | cons c rest ih =>
    intro ram s hcap htop hroom hb
    have hc := hb c (List.mem_cons_self c rest)
    have hlen : (c :: rest).length = rest.length + 1 := rfl
    rw [hlen] at hroom ⊢
    have hd : depth s ≤ 14 := by omega
    -- the state after the first call
    have hs1 := step_call rnd ram s c hcap hd hc.1 hc.2.1 hc.2.2
    have hcs : callSeq rnd (c :: rest) (ram, s)
        = callSeq rnd rest
            (step rnd (setByte (setByte ram PROGRAM_COUNTER_H c.pcH) PROGRAM_COUNTER_L c.pcL, s)
              (0x2000 + c.target)) := rfl
    rw [hcs]
    generalize step rnd (setByte (setByte ram PROGRAM_COUNTER_H c.pcH) PROGRAM_COUNTER_L c.pcL, s)
        (0x2000 + c.target) = st1 at hs1 ⊢
    obtain ⟨ram1, s1⟩ := st1
    simp only at hs1
    have hd1 : depth s1 = depth s + 2 := by
      rw [hs1]
      unfold depth
      simp only
      unfold depth at hd
      omega
    have hih := ih ram1 s1 (by rw [hs1]) (by rw [hs1]; simp only; omega) (by omega)
      (fun x hx => hb x (List.mem_cons_of_mem c hx))
    obtain ⟨hpcs, htop1, hcap1, harr1⟩ := hih
    generalize callSeq rnd rest (ram1, s1) = st at hpcs htop1 hcap1 harr1 ⊢
    have hret : afterReturns rnd (rest.length + 1) st
        = step rnd (afterReturns rnd rest.length st) 0x00EE := rfl
    rw [returnedPCs_succ, hpcs, hret]
    generalize afterReturns rnd rest.length st = fin at htop1 hcap1 harr1 ⊢
    obtain ⟨ramf, sf⟩ := fin
    simp only at htop1 hcap1 harr1
    rw [step_return]
    have ht1 : s1.top = depth s + 1 := by rw [hs1]
    have et1 : (sf.top + 65535) % 65536 = depth s := by rw [htop1, ht1]; omega
    have et2 : (depth s + 65535) % 65536 = s.top := by unfold depth; omega
    have ea1 : sf.array (depth s + 1) = c.pcH := by
      rw [harr1 _ (by omega), hs1]
      simp only [setWord, if_true]
      omega
    have ea0 : sf.array (depth s) = c.pcL := by
      rw [harr1 _ (by omega), hs1]
      simp only [setWord, if_true]
      rw [if_neg (by omega)]
      omega
    have hne : PROGRAM_COUNTER_H ≠ PROGRAM_COUNTER_L := by decide
    refine ⟨?_, ?_, ?_, ?_⟩
    · simp only [et1]
      simp only [List.map_cons, List.reverse_cons, htop1, ht1, ea1, ea0, pcBytes, Call.pc,
        setByte, if_neg hne, if_true, Nat.mod_eq_of_lt hc.1, Nat.mod_eq_of_lt hc.2.1]
    · simp only [et1, et2]
    · simp only [hcap1]
    · intro i hi
      simp only
      rw [harr1 i (by omega), hs1]
      simp only [setWord]
      rw [if_neg (by omega), if_neg (by omega)]

/-- C6 (amended): starting from the empty stack of capacity 16, for every
sequence of `k ≤ 8` nested calls `2NNN`, each executed with its own
program-counter bytes, `k` subsequent `00EE` returns restore those `k`
program-counter values in reverse (LIFO) order. -/
theorem nested_calls_return_lifo (rnd : Nat) (ram : RAM) (cells : Nat → Nat)
    (calls : List Call) (hk : calls.length ≤ 8)
    (hb : ∀ c ∈ calls, c.pcH < 256 ∧ c.pcL < 256 ∧ c.target < 4096) :
    returnedPCs rnd calls.length (callSeq rnd calls (ram, createStack 16 cells))
      = (calls.map Call.pc).reverse := by
  have hd : depth (createStack 16 cells) = 0 := by
    unfold depth createStack
    norm_num
  refine (nested_calls_aux rnd calls ram (createStack 16 cells) ?_ ?_ ?_ hb).1
  · simp only [createStack]
  · simp only [createStack]
    norm_num
  · rw [hd]
    omega

theorem nested_calls_return_lifo_witness :
    returnedPCs 0 eightCalls.length
        (callSeq 0 eightCalls (fun _ => 0, createStack 16 (fun _ => 0)))
      = (eightCalls.map Call.pc).reverse :=
  nested_calls_return_lifo 0 (fun _ => 0) (fun _ => 0) eightCalls (by decide) (by decide)

/-- C6 as stated fails for more than 8 nested calls: after the nine calls of
`nineCalls` on the empty stack of capacity 16, nine returns do not restore the
nine program-counter values in reverse order: the ninth call finds the stack
full and its return address is not stored, so the first return restores
`0x0210`, the program counter of the eighth call, not `0x0212`. -/
theorem nine_calls_not_lifo :
    ¬ (returnedPCs 0 nineCalls.length
          (callSeq 0 nineCalls (fun _ => 0, createStack 16 (fun _ => 0)))
        = (nineCalls.map Call.pc).reverse) ∧
    returnedPCs 0 1 (callSeq 0 nineCalls (fun _ => 0, createStack 16 (fun _ => 0)))
      = [(0x02, 0x10)] ∧
    (nineCalls.map Call.pc).reverse.head? = some (0x02, 0x12) := by
  decide

/-! ## Stack overflow in a call -/

theorem execute_result (rnd : Nat) (ram : RAM) (s : Stack) (op : Nat) :
    (execute rnd ram s op).1 = 1 := by
  simp only [execute]
  split <;> (try split_ifs) <;> rfl

/-- C7 as stated fails: on the full stack `fullStack` the call `2300` returns
the same result as the same call on the empty stack, where it succeeds, and
the program counter is set to `0x300`. -/
theorem call_on_full_stack_not_reported :
    (execute 0 callRAM fullStack 0x2300).1
      = (execute 0 callRAM (createStack 16 (fun _ => 0)) 0x2300).1 ∧
    stackIsFull fullStack = 1 ∧
    programCounter (execute 0 callRAM fullStack 0x2300).2.1 = 0x300 := by
  decide

/-- C7 (amended): for every target `nnn` and every state whose call stack is
full, executing `2NNN` returns 1, which is the result of every executed
instruction, leaves the stack unchanged (the return address is not stored)
and sets the program counter to `nnn`. -/
theorem call_on_full_stack (rnd : Nat) (ram : RAM) (s : Stack) (nnn : Nat)
    (hn : nnn < 4096) (hfull : stackIsFull s = 1) :
    (execute rnd ram s (0x2000 + nnn)).1 = 1 ∧
    (∀ (rnd2 : Nat) (ram2 : RAM) (s2 : Stack) (op2 : Nat),
      (execute rnd2 ram2 s2 op2).1 = (execute rnd ram s (0x2000 + nnn)).1) ∧
    (execute rnd ram s (0x2000 + nnn)).2.2 = s ∧
    programCounter (execute rnd ram s (0x2000 + nnn)).2.1 = nnn := by
  have hop : ((0x2000 + nnn) / 4096) % 16 = 2 := by omega
  have hnH : (0x2000 + nnn) / 256 % 16 % 256 = nnn / 256 := by omega
  have hnL : (0x2000 + nnn) % 256 % 256 = nnn % 256 := by omega
  have hne : PROGRAM_COUNTER_H ≠ PROGRAM_COUNTER_L := by decide
  refine ⟨execute_result _ _ _ _, ?_, ?_, ?_⟩
  · intro rnd2 ram2 s2 op2
    rw [execute_result, execute_result]
  · rw [execute_call _ _ _ _ hop, push_of_full s _ hfull, push_of_full s _ hfull]
  · rw [execute_call _ _ _ _ hop]
    simp only [programCounter, setByte, hnH, hnL, if_neg hne, if_true]
    omega

theorem call_on_full_stack_witness :
    (execute 0 callRAM fullStack (0x2000 + 0x300)).2.2 = fullStack ∧
    programCounter (execute 0 callRAM fullStack (0x2000 + 0x300)).2.1 = 0x300 :=
  have h := call_on_full_stack 0 callRAM fullStack 0x300 (by decide) (by decide)
  ⟨h.2.2.1, h.2.2.2⟩

/-! ## Advancing the program counter -/

theorem incrementPC_frame (ram : RAM) (a : Nat) (hH : a ≠ PROGRAM_COUNTER_H)
    (hL : a ≠ PROGRAM_COUNTER_L) : incrementPC ram a = ram a := by
  unfold incrementPC
  split_ifs <;> simp [setByte, hH, hL]

theorem incrementPC_programCounter (ram : RAM) (hram : ByteRAM ram)
    (hodd : ram PROGRAM_COUNTER_L ≠ 0xff) :
    programCounter (incrementPC ram) = (programCounter ram + 2) % 65536 := by
  have hH : ram PROGRAM_COUNTER_H < 256 := hram _ (by decide)
  have hL : ram PROGRAM_COUNTER_L < 256 := hram _ (by decide)
  have hne : PROGRAM_COUNTER_H ≠ PROGRAM_COUNTER_L := by decide
  have hne2 : PROGRAM_COUNTER_L ≠ PROGRAM_COUNTER_H := by decide
  unfold incrementPC programCounter
  split_ifs with h
  · simp only [setByte, if_neg hne, if_neg hne2, if_true]
    omega
  · simp only [setByte, if_neg hne, if_neg hne2, if_true]
    omega

/-- C8 (code defect): with the program counter at the odd address `0x02FF`,
`incrementPC` sets the low byte to 0 and increments the high byte, so the
program counter becomes `0x0300`, not `(0x02FF + 2) mod 65536 = 0x0301`. -/
theorem incrementPC_odd_boundary :
    programCounter oddPCRAM = 0x02FF ∧
    programCounter (incrementPC oddPCRAM) = 0x0300 ∧
    programCounter (incrementPC oddPCRAM) ≠ (programCounter oddPCRAM + 2) % 65536 := by
  decide

/-! ## Conditional skips -/

/-- C9: for registers `X`, `Y` in 0..15 and a byte `NN`, executing `3XNN`
(`4XNN`, `5XY0`, `9XY0`) returns 1 with the stack unchanged and with the memory
`incrementPC` produces when `VX = NN` (`VX ≠ NN`, `VX = VY`, `VX ≠ VY`) holds,
and the unchanged memory otherwise, where `VX`, `VY` are the cells `0x40 + X`,
`0x40 + Y`; `incrementPC` changes no cell other than the two program-counter
bytes. -/
theorem skip_instructions (rnd : Nat) (ram : RAM) (s : Stack) (X Y NN : Nat)
    (hX : X < 16) (hY : Y < 16) (hNN : NN < 256) :
    execute rnd ram s (0x3000 + X * 256 + NN)
      = (1, if ram (V0 + X) = NN then incrementPC ram else ram, s) ∧
    execute rnd ram s (0x4000 + X * 256 + NN)
      = (1, if ram (V0 + X) ≠ NN then incrementPC ram else ram, s) ∧
    execute rnd ram s (0x5000 + X * 256 + Y * 16)
      = (1, if ram (V0 + X) = ram (V0 + Y) then incrementPC ram else ram, s) ∧
    execute rnd ram s (0x9000 + X * 256 + Y * 16)
      = (1, if ram (V0 + X) ≠ ram (V0 + Y) then incrementPC ram else ram, s) ∧
    (∀ a, a ≠ PROGRAM_COUNTER_H → a ≠ PROGRAM_COUNTER_L → incrementPC ram a = ram a) := by
  have h3 : ((0x3000 + X * 256 + NN) / 4096) % 16 = 3 := by omega
  have h4 : ((0x4000 + X * 256 + NN) / 4096) % 16 = 4 := by omega
  have h5 : ((0x5000 + X * 256 + Y * 16) / 4096) % 16 = 5 := by omega
  have h9 : ((0x9000 + X * 256 + Y * 16) / 4096) % 16 = 9 := by omega
  have x3 : (0x3000 + X * 256 + NN) / 256 % 16 = X := by omega
  have x4 : (0x4000 + X * 256 + NN) / 256 % 16 = X := by omega
  have x5 : (0x5000 + X * 256 + Y * 16) / 256 % 16 = X := by omega
  have x9 : (0x9000 + X * 256 + Y * 16) / 256 % 16 = X := by omega
  have y5 : (0x5000 + X * 256 + Y * 16) / 16 % 16 = Y := by omega
  have y9 : (0x9000 + X * 256 + Y * 16) / 16 % 16 = Y := by omega
  have n3 : (0x3000 + X * 256 + NN) % 256 = NN := by omega
  have n4 : (0x4000 + X * 256 + NN) % 256 = NN := by omega
  refine ⟨?_, ?_, ?_, ?_, fun a hH hL => incrementPC_frame ram a hH hL⟩
  · simp only [execute, first_nibble, h3, regX_eq, low_byte, x3, n3]
    split_ifs <;> rfl
  · simp only [execute, first_nibble, h4, regX_eq, low_byte, x4, n4]
    split_ifs <;> rfl
  · simp only [execute, first_nibble, h5, regX_eq, regY4_eq, x5, y5]
    split_ifs <;> rfl
  · simp only [execute, first_nibble, h9, regX_eq, regY4_eq, x9, y9]
    split_ifs <;> rfl

theorem skip_instructions_witness :
    execute 0 aluRAM fullStack (0x3000 + 1 * 256 + 1)
      = (1, if aluRAM (V0 + 1) = 1 then incrementPC aluRAM else aluRAM, fullStack) ∧
    execute 0 aluRAM fullStack (0x9000 + 1 * 256 + 2 * 16)
      = (1, if aluRAM (V0 + 1) ≠ aluRAM (V0 + 2) then incrementPC aluRAM else aluRAM,
          fullStack) :=
  have h := skip_instructions 0 aluRAM fullStack 1 2 1 (by decide) (by decide) (by decide)
  ⟨h.1, h.2.2.2.1⟩

/-! ## Register-register operations -/

/-- C10 (code defect): with `V0 = 0`, `V1 = 1`, `V2 = 5`, the instructions
`8120`, `8121`, `8122`, `8123` (X = 1, Y = 2) leave 0, 1, 0, 1 in `V1`: the
second operand read is `V0`, not the register `V2` selected by opcode bits
4-7, for which the results would be 5, 5, 1, 4. -/
theorem alu_reads_V0_not_VY :
    aluRAM 0x42 = 5 ∧ aluRAM 0x41 = 1 ∧ aluRAM 0x40 = 0 ∧
    (execute 0 aluRAM fullStack 0x8120).2.1 0x41 = 0 ∧
    (execute 0 aluRAM fullStack 0x8121).2.1 0x41 = 1 ∧
    (execute 0 aluRAM fullStack 0x8122).2.1 0x41 = 0 ∧
    (execute 0 aluRAM fullStack 0x8123).2.1 0x41 = 1 ∧
    (aluRAM 0x41 ||| aluRAM 0x42) = 5 ∧ (aluRAM 0x41 &&& aluRAM 0x42) = 1 ∧
    (aluRAM 0x41 ^^^ aluRAM 0x42) = 4 := by
  decide

theorem execute_alu (rnd : Nat) (ram : RAM) (s : Stack) (op : Nat)
    (h : (op / 4096) % 16 = 8) :
    execute rnd ram s op = (1, execute8 ram op, s) := by
  simp only [execute, first_nibble, h]

/-- C11 (code defect): with `V0 = 0x20`, after the shift-left instruction
`810E` register `VF` holds `0x20 = 32`, neither 0 nor 1: the flag is computed
as `RAM[V0] & 0x20` and stored unshifted. -/
theorem shift_left_flag_not_boolean :
    (execute 0 flagRAM fullStack 0x810E).2.1 VF = 32 ∧
    (execute 0 flagRAM fullStack 0x810E).2.1 VF ≠ 0 ∧
    (execute 0 flagRAM fullStack 0x810E).2.1 VF ≠ 1 := by
  decide

/-! ## Immediate load and add -/

/-- C12: for a register `X` in 0..15 and a byte `NN`, executing `6XNN` leaves
`NN` in `VX` and executing `7XNN` leaves `(VX + NN) mod 256` in `VX`; in both
cases every other memory cell (so `VF` when `X ≠ F`, the other registers, I,
the program counter, the timers) and the stack are unchanged. -/
theorem load_and_add_immediate (rnd : Nat) (ram : RAM) (s : Stack) (X NN : Nat)
    (hX : X < 16) (hNN : NN < 256) :
    (execute rnd ram s (0x6000 + X * 256 + NN)).2.1 (V0 + X) = NN ∧
    (∀ a, a ≠ V0 + X → (execute rnd ram s (0x6000 + X * 256 + NN)).2.1 a = ram a) ∧
    (execute rnd ram s (0x6000 + X * 256 + NN)).2.2 = s ∧
    (execute rnd ram s (0x7000 + X * 256 + NN)).2.1 (V0 + X) = (ram (V0 + X) + NN) % 256 ∧
    (∀ a, a ≠ V0 + X → (execute rnd ram s (0x7000 + X * 256 + NN)).2.1 a = ram a) ∧
    (execute rnd ram s (0x7000 + X * 256 + NN)).2.2 = s := by
  have h6 : ((0x6000 + X * 256 + NN) / 4096) % 16 = 6 := by omega
  have h7 : ((0x7000 + X * 256 + NN) / 4096) % 16 = 7 := by omega
  have x6 : (0x6000 + X * 256 + NN) / 256 % 16 = X := by omega
  have x7 : (0x7000 + X * 256 + NN) / 256 % 16 = X := by omega
  have n6 : (0x6000 + X * 256 + NN) % 256 = NN := by omega
  have n7 : (0x7000 + X * 256 + NN) % 256 = NN := by omega
  have e6 : execute rnd ram s (0x6000 + X * 256 + NN) = (1, setByte ram (V0 + X) NN, s) := by
    simp only [execute, first_nibble, h6, regX_eq, low_byte, x6, n6]
  have e7 : execute rnd ram s (0x7000 + X * 256 + NN)
      = (1, setByte ram (V0 + X) (ram (V0 + X) + NN), s) := by
    simp only [execute, first_nibble, h7, regX_eq, low_byte, x7, n7]
  rw [e6, e7]
  refine ⟨?_, ?_, rfl, ?_, ?_, rfl⟩
  · simp only [setByte, if_true]
    exact Nat.mod_eq_of_lt hNN
  · intro a ha
    simp only [setByte, if_neg ha]
  · simp only [setByte, if_true]
  · intro a ha
    simp only [setByte, if_neg ha]

theorem load_and_add_immediate_witness :
    (execute 0 aluRAM fullStack (0x6000 + 1 * 256 + 157)).2.1 (V0 + 1) = 157 ∧
    (execute 0 aluRAM fullStack (0x7000 + 2 * 256 + 255)).2.1 (V0 + 2)
      = (aluRAM (V0 + 2) + 255) % 256 :=
  have h := load_and_add_immediate 0 aluRAM fullStack 1 157 (by decide) (by decide)
  have h2 := load_and_add_immediate 0 aluRAM fullStack 2 255 (by decide) (by decide)
  ⟨h.1, h2.2.2.2.1⟩

/-! ## Jump with offset -/

/-- C13 (code defect): with `V0 = 5`, after `B300` the program counter is
`0x300`, not `0x300 + V0 = 0x305`: the sum `NNN + V0` is computed into `temp1`
and never used, the program counter is loaded from `NNN` alone. -/
theorem jump_offset_ignores_V0 :
    jumpRAM V0 = 5 ∧
    programCounter (execute 0 jumpRAM fullStack 0xB300).2.1 = 0x300 ∧
    programCounter (execute 0 jumpRAM fullStack 0xB300).2.1 ≠ 0x300 + jumpRAM V0 := by
  decide

/-! ## Opcodes outside the instruction set -/

/-- C15: for every `0NNN` other than `00E0` and `00EE`, and for every `8XYk`
with `k` one of 8, 9, A, B, C, D, F, `execute` returns 1 and leaves the whole
memory and the stack as they were. -/
theorem unknown_opcodes_noop (rnd : Nat) (ram : RAM) (s : Stack) (NNN X Y k : Nat)
    (hN : NNN < 4096) (hE0 : NNN ≠ 0x0E0) (hEE : NNN ≠ 0x0EE)
    (hX : X < 16) (hY : Y < 16)
    (hk : k = 8 ∨ k = 9 ∨ k = 0xA ∨ k = 0xB ∨ k = 0xC ∨ k = 0xD ∨ k = 0xF) :
    execute rnd ram s NNN = (1, ram, s) ∧
    execute rnd ram s (0x8000 + X * 256 + Y * 16 + k) = (1, ram, s) := by
  constructor
  · have h0 : (NNN / 4096) % 16 = 0 := by omega
    simp only [execute, first_nibble, h0, if_neg hE0, if_neg hEE]
  · have h8 : ((0x8000 + X * 256 + Y * 16 + k) / 4096) % 16 = 8 := by omega
    have hlow : (0x8000 + X * 256 + Y * 16 + k) % 16 = k := by omega
    rw [execute_alu _ _ _ _ h8]
    simp only [execute8, low_nibble, hlow]
    rcases hk with h | h | h | h | h | h | h <;> subst h <;> rfl

theorem unknown_opcodes_noop_witness :
    execute 0 aluRAM fullStack 0x123 = (1, aluRAM, fullStack) ∧
    execute 0 aluRAM fullStack (0x8000 + 1 * 256 + 2 * 16 + 9) = (1, aluRAM, fullStack) :=
  unknown_opcodes_noop 0 aluRAM fullStack 0x123 1 2 9 (by decide) (by decide) (by decide)
    (by decide) (by decide) (by decide)

/-! ## Class F -/

/-- C14 as stated fails: with `I = 0x0300`, after `609D` (V0 := 157) followed by
`F033` the cells `0x300`, `0x301`, `0x302` still hold 0, 0, 0, not the digits
1, 5, 7. -/
theorem bcd_digits_not_stored :
    indexRegister bcdRAM = 0x300 ∧
    (execute 0 (execute 0 bcdRAM fullStack 0x609D).2.1
        (execute 0 bcdRAM fullStack 0x609D).2.2 0xF033).2.1 V0 = 157 ∧
    (execute 0 (execute 0 bcdRAM fullStack 0x609D).2.1
        (execute 0 bcdRAM fullStack 0x609D).2.2 0xF033).2.1 0x300 = 0 ∧
    (execute 0 (execute 0 bcdRAM fullStack 0x609D).2.1
        (execute 0 bcdRAM fullStack 0x609D).2.2 0xF033).2.1 0x301 = 0 ∧
    (execute 0 (execute 0 bcdRAM fullStack 0x609D).2.1
        (execute 0 bcdRAM fullStack 0x609D).2.2 0xF033).2.1 0x302 = 0 ∧
    157 / 100 = 1 ∧ 157 / 10 % 10 = 5 ∧ 157 % 10 = 7 := by
  decide

theorem execute_classF (rnd : Nat) (ram : RAM) (s : Stack) (op : Nat)
    (h : (op / 4096) % 16 = 0xF) :
    execute rnd ram s op = (1, ram, s) := by
  simp only [execute, first_nibble, h]

/-- C14 (amended): for a register `X` in 0..15 and a byte `v`, executing `6Xvv`
followed immediately by `FX33` leaves `v` in `VX` and changes no other memory
cell and not the stack: `FX33` stores nothing, so `memory[I]`, `memory[I+1]`,
`memory[I+2]` keep the values they had (where they are not `VX` itself). -/
theorem load_then_bcd (rnd rnd2 : Nat) (ram : RAM) (s : Stack) (X v : Nat)
    (hX : X < 16) (hv : v < 256) :
    (execute rnd2 (execute rnd ram s (0x6000 + X * 256 + v)).2.1
        (execute rnd ram s (0x6000 + X * 256 + v)).2.2 (0xF033 + X * 256)).2.1 (V0 + X) = v ∧
    (∀ a, a ≠ V0 + X →
      (execute rnd2 (execute rnd ram s (0x6000 + X * 256 + v)).2.1
        (execute rnd ram s (0x6000 + X * 256 + v)).2.2 (0xF033 + X * 256)).2.1 a = ram a) ∧
    (∀ j, j ≤ 2 → indexRegister ram + j ≠ V0 + X →
      (execute rnd2 (execute rnd ram s (0x6000 + X * 256 + v)).2.1
        (execute rnd ram s (0x6000 + X * 256 + v)).2.2 (0xF033 + X * 256)).2.1
          (indexRegister ram + j) = ram (indexRegister ram + j)) ∧
    (execute rnd2 (execute rnd ram s (0x6000 + X * 256 + v)).2.1
        (execute rnd ram s (0x6000 + X * 256 + v)).2.2 (0xF033 + X * 256)).2.2 = s := by
  have hF : ((0xF033 + X * 256) / 4096) % 16 = 0xF := by omega
  have h6 : ((0x6000 + X * 256 + v) / 4096) % 16 = 6 := by omega
  have x6 : (0x6000 + X * 256 + v) / 256 % 16 = X := by omega
  have n6 : (0x6000 + X * 256 + v) % 256 = v := by omega
  have e6 : execute rnd ram s (0x6000 + X * 256 + v) = (1, setByte ram (V0 + X) v, s) := by
    simp only [execute, first_nibble, h6, regX_eq, low_byte, x6, n6]
  rw [execute_classF _ _ _ _ hF, e6]
  refine ⟨?_, ?_, ?_, rfl⟩
  · simp only [setByte, if_true]
    exact Nat.mod_eq_of_lt hv
  · intro a ha
    simp only [setByte, if_neg ha]
  · intro j _ hj
    simp only [setByte, if_neg hj]

theorem load_then_bcd_witness :
    (execute 0 (execute 0 bcdRAM fullStack (0x6000 + 0 * 256 + 157)).2.1
        (execute 0 bcdRAM fullStack (0x6000 + 0 * 256 + 157)).2.2 (0xF033 + 0 * 256)).2.1
          (V0 + 0) = 157 ∧
    (execute 0 (execute 0 bcdRAM fullStack (0x6000 + 0 * 256 + 157)).2.1
        (execute 0 bcdRAM fullStack (0x6000 + 0 * 256 + 157)).2.2 (0xF033 + 0 * 256)).2.2
          = fullStack :=
  have h := load_then_bcd 0 0 bcdRAM fullStack 0 157 (by decide) (by decide)
  ⟨h.1, h.2.2.2⟩

/-! ## Subtraction, shifts and addition with flag -/

/-- C16 (code defect): with `V0 = 5`, `V1 = 5`, `V2 = 1`, `V3 = 9`:
`8105` leaves `V1 = 0` and `VF = 0` although `V1 ≥ V0` (no borrow);
`8207` leaves `V2 = 4` and `VF = 0` although `V0 ≥ V2` (no borrow);
`8307` leaves `V3 = 252` and `VF = 1` although `V0 < V3` (borrow). -/
theorem subtract_flags_wrong :
    subRAM 0x41 ≥ subRAM V0 ∧
    (execute 0 subRAM fullStack 0x8105).2.1 0x41 = 0 ∧
    (execute 0 subRAM fullStack 0x8105).2.1 VF = 0 ∧
    subRAM V0 ≥ subRAM 0x42 ∧
    (execute 0 subRAM fullStack 0x8207).2.1 0x42 = 4 ∧
    (execute 0 subRAM fullStack 0x8207).2.1 VF = 0 ∧
    subRAM V0 < subRAM 0x43 ∧
    (execute 0 subRAM fullStack 0x8307).2.1 0x43 = 252 ∧
    (execute 0 subRAM fullStack 0x8307).2.1 VF = 1 := by
  decide

/-- C17 (code defect): with `V0 = 0x81` (bit 0 and bit 7 set):
`8006` leaves `V0 = 0x40` and `VF = 0`, not bit 0 of the value before the
instruction; `810E` leaves `V1 = 0x02` and `VF = 0`, not bit 7 of `V0`. -/
theorem shift_flags_wrong :
    shiftRAM V0 % 2 = 1 ∧ shiftRAM V0 / 128 % 2 = 1 ∧
    (execute 0 shiftRAM fullStack 0x8006).2.1 V0 = 0x40 ∧
    (execute 0 shiftRAM fullStack 0x8006).2.1 VF = 0 ∧
    (execute 0 shiftRAM fullStack 0x810E).2.1 0x41 = 0x02 ∧
    (execute 0 shiftRAM fullStack 0x810E).2.1 VF = 0 := by
  decide

/-- C18: for a register `X` in 0..15, executing `8X04` leaves
`(VX + V0) mod 256` in `VX` when `X ≠ F`, and leaves in `VF` the carry: 1 when
the sum of the values `VX` and `V0` held before the instruction exceeds 255,
else 0 (also when `X = F`, where the flag is written after the sum); for
`X = 0` the result is `(2 * V0) mod 256`; no other cell and not the stack
changes. -/
theorem add_with_carry (rnd : Nat) (ram : RAM) (s : Stack) (X : Nat) (hX : X < 16) :
    (X ≠ 0xF → (execute rnd ram s (0x8004 + X * 256)).2.1 (V0 + X)
      = (ram (V0 + X) + ram V0) % 256) ∧
    (execute rnd ram s (0x8004 + X * 256)).2.1 VF
      = (if ram (V0 + X) + ram V0 > 255 then 1 else 0) ∧
    (X = 0 → (execute rnd ram s (0x8004 + X * 256)).2.1 V0 = (2 * ram V0) % 256) ∧
    (∀ a, a ≠ V0 + X → a ≠ VF → (execute rnd ram s (0x8004 + X * 256)).2.1 a = ram a) ∧
    (execute rnd ram s (0x8004 + X * 256)).2.2 = s := by
  have h8 : ((0x8004 + X * 256) / 4096) % 16 = 8 := by omega
  have hlow : (0x8004 + X * 256) % 16 = 4 := by omega
  have hx : (0x8004 + X * 256) / 256 % 16 = X := by omega
  have e : execute8 ram (0x8004 + X * 256)
      = setByte (setByte ram (V0 + X) (ram (V0 + X) + ram V0)) VF
          (if ram (V0 + X) + ram V0 > 255 then 1 else 0) := by
    simp only [execute8, low_nibble, hlow, regX_eq, regY8_eq, hx]
    by_cases hc : ram (V0 + X) + ram V0 > 255
    · have hi : (0xff : Int) - (ram (V0 + X) : Int) < (ram V0 : Int) := by omega
      rw [if_pos hi, if_pos hc]
    · have hi : ¬ ((0xff : Int) - (ram (V0 + X) : Int) < (ram V0 : Int)) := by omega
      rw [if_neg hi, if_neg hc]
  rw [execute_alu _ _ _ _ h8, e]
  refine ⟨?_, ?_, ?_, ?_, rfl⟩
  · intro hne
    have h1 : V0 + X ≠ VF := by
      show 0x40 + X ≠ 0x4f
      omega
    simp only [setByte, if_neg h1, if_true]
  · simp only [setByte, if_true]
    split_ifs <;> rfl
  · intro h0
    subst h0
    have h1 : V0 ≠ VF := by decide
    simp only [setByte, if_neg h1, if_true, Nat.add_zero]
    congr 1
    omega
  · intro a ha hf
    simp only [setByte, if_neg ha, if_neg hf]

theorem add_with_carry_witness :
    (execute 0 subRAM fullStack (0x8004 + 3 * 256)).2.1 (V0 + 3)
      = (subRAM (V0 + 3) + subRAM V0) % 256 ∧
    (execute 0 subRAM fullStack (0x8004 + 3 * 256)).2.1 VF
      = (if subRAM (V0 + 3) + subRAM V0 > 255 then 1 else 0) :=
  have h := add_with_carry 0 subRAM fullStack 3 (by decide)
  ⟨h.1 (by decide), h.2.1⟩

/-! ## Memory footprint of `execute` -/

theorem regX_range (op : Nat) : 0x40 ≤ regX op ∧ regX op ≤ 0x4f := by
  rw [regX_eq]
  omega

theorem regY4_range (op : Nat) : 0x40 ≤ regY4 op ∧ regY4 op ≤ 0x4f := by
  rw [regY4_eq]
  omega

theorem incrementPCIndices_range (ram : RAM) (i : Nat) (hi : i ∈ incrementPCIndices ram) :
    i = PROGRAM_COUNTER_H ∨ i = PROGRAM_COUNTER_L := by
  unfold incrementPCIndices at hi
  split_ifs at hi <;> simp at hi <;> omega

theorem incrementPC_unlisted (ram : RAM) (a : Nat) (ha : a ∉ incrementPCIndices ram) :
    incrementPC ram a = ram a := by
  unfold incrementPCIndices at ha
  unfold incrementPC
  split_ifs at ha ⊢ <;> simp at ha <;> simp [setByte, ha]

theorem execute8Indices_range (op i : Nat) (hi : i ∈ execute8Indices op) :
    0x40 ≤ i ∧ i ≤ 0x4f := by
  have hx := regX_range op
  have hy : regY8 op = 0x40 := regY8_eq op
  have hvf : VF = 0x4f := rfl
  simp only [execute8Indices] at hi
  split at hi <;> simp [hy, hvf] at hi <;> omega

theorem execute8_unlisted (ram : RAM) (op a : Nat) (ha : a ∉ execute8Indices op) :
    execute8 ram op a = ram a := by
  have hk : op % 16 < 16 := Nat.mod_lt _ (by decide)
  generalize hkk : op % 16 = k at hk
  interval_cases k <;> simp only [execute8, execute8Indices, low_nibble, hkk] at ha ⊢ <;>
    simp at ha <;> (try split_ifs) <;> simp [setByte, setByteInt, ha]

theorem executeIndices_range (ram : RAM) (op i : Nat) (hi : i ∈ executeIndices ram op) :
    0x3c ≤ i ∧ i ≤ 0x4f := by
  have hx := regX_range op
  have hy := regY4_range op
  have cH : PROGRAM_COUNTER_H = 0x3e := rfl
  have cL : PROGRAM_COUNTER_L = 0x3f := rfl
  have cIH : I_REG_H = 0x3c := rfl
  have cIL : I_REG_L = 0x3d := rfl
  have cV0 : V0 = 0x40 := rfl
  have hk : (op / 4096) % 16 < 16 := Nat.mod_lt _ (by decide)
  generalize hkk : (op / 4096) % 16 = k at hk
  interval_cases k <;> simp only [executeIndices, incrementPCIndices, first_nibble, hkk] at hi
  case «8» =>
    have h8 := execute8Indices_range op i hi
    omega
  all_goals
    (try split_ifs at hi) <;> simp [cH, cL, cIH, cIL, cV0] at hi <;> omega

theorem execute_unlisted (rnd : Nat) (ram : RAM) (s : Stack) (op a : Nat)
    (ha : a ∉ executeIndices ram op) : (execute rnd ram s op).2.1 a = ram a := by
  have hk : (op / 4096) % 16 < 16 := Nat.mod_lt _ (by decide)
  generalize hkk : (op / 4096) % 16 = k at hk
  interval_cases k <;> simp only [execute, executeIndices, first_nibble, hkk] at ha ⊢
  case «8» => exact execute8_unlisted ram op a ha
  all_goals
    (try split_ifs at ha ⊢) <;> simp at ha <;>
      first
      | rfl
      | exact incrementPC_unlisted ram a (by tauto)
      | simp [setByte, ha]

/-- C19: for every opcode and every state, every `RAM` index `execute`
evaluates lies in `[0, 4096)` (indeed in `0x3C..0x4F`), every cell `execute`
changes is one of those indices, and so no cell outside `0x3C..0x4F` changes:
the area below `0x3A`, the timers at `0x3A`, `0x3B`, and the program space
`0x200..0xFFF` are as before. -/
theorem execute_memory_footprint (rnd : Nat) (ram : RAM) (s : Stack) (opcode : Nat) :
    (∀ i, i ∈ executeIndices ram opcode → i < RAMSIZE) ∧
    (∀ a, a ∉ executeIndices ram opcode → (execute rnd ram s opcode).2.1 a = ram a) ∧
    (∀ a, a < 0x3c ∨ 0x4f < a → (execute rnd ram s opcode).2.1 a = ram a) := by
  refine ⟨?_, ?_, ?_⟩
  · intro i hi
    have h := executeIndices_range ram opcode i hi
    show i < 4096
    omega
  · intro a ha
    exact execute_unlisted rnd ram s opcode a ha
  · intro a ha
    apply execute_unlisted
    intro hmem
    have h := executeIndices_range ram opcode a hmem
    omega

/-! ## The instruction loop -/

theorem execute_zero (rnd : Nat) (ram : RAM) (s : Stack) : execute rnd ram s 0 = (1, ram, s) := by
  simp [execute]

theorem cycle_eq (rnd : Nat) (ram : RAM) (s : Stack) (hL : ram PROGRAM_COUNTER_L < 256) :
    cycle rnd (ram, s) = (incrementPC ram, s) := by
  have hf : (fetch ram).1 = 0 := fetch_instruction_eq_zero ram hL
  have hm : (fetch ram).2 = incrementPC ram := rfl
  simp only [cycle, step, hf, hm, execute_zero]

theorem incrementPC_byteRAM (ram : RAM) (h : ByteRAM ram) : ByteRAM (incrementPC ram) := by
  intro a ha
  have hlt : ∀ v : Nat, v % 256 < 256 := fun v => Nat.mod_lt v (by decide)
  have := h a ha
  unfold incrementPC
  split_ifs <;> simp only [setByte] <;> split_ifs <;> first | exact hlt _ | assumption

theorem incrementPC_agree (ram ram2 : RAM)
    (h : ∀ a, 0x3a ≤ a → a ≤ 0x4f → ram a = ram2 a) :
    ∀ a, 0x3a ≤ a → a ≤ 0x4f → incrementPC ram a = incrementPC ram2 a := by
  intro a h1 h2
  have hH : ram PROGRAM_COUNTER_H = ram2 PROGRAM_COUNTER_H := h _ (by decide) (by decide)
  have hL : ram PROGRAM_COUNTER_L = ram2 PROGRAM_COUNTER_L := h _ (by decide) (by decide)
  have ha := h a h1 h2
  unfold incrementPC
  rw [hL]
  split_ifs <;> simp only [setByte, hH, hL, ha]

theorem run_invariant (rnd : Nat → Nat) (ram ram2 : RAM) (s : Stack)
    (h1 : ByteRAM ram) (h2 : ByteRAM ram2)
    (h : ∀ a, 0x3a ≤ a → a ≤ 0x4f → ram a = ram2 a) (n : Nat) :
    ByteRAM (run rnd n (ram, s)).1 ∧ ByteRAM (run rnd n (ram2, s)).1 ∧
    (∀ a, 0x3a ≤ a → a ≤ 0x4f → (run rnd n (ram, s)).1 a = (run rnd n (ram2, s)).1 a) ∧
    (run rnd n (ram, s)).2 = s ∧ (run rnd n (ram2, s)).2 = s := by
  induction n with
  | zero => exact ⟨h1, h2, h, rfl, rfl⟩
  | succ n ih =>
    obtain ⟨b1, b2, hag, s1, s2⟩ := ih
    have e1 : run rnd (n + 1) (ram, s) = cycle (rnd n) (run rnd n (ram, s)) := rfl
    have e2 : run rnd (n + 1) (ram2, s) = cycle (rnd n) (run rnd n (ram2, s)) := rfl
    rw [e1, e2]
    generalize run rnd n (ram, s) = st1 at b1 hag s1 ⊢
    generalize run rnd n (ram2, s) = st2 at b2 hag s2 ⊢
    obtain ⟨r1, t1⟩ := st1
    obtain ⟨r2, t2⟩ := st2
    simp only at b1 b2 hag s1 s2
    subst s1
    subst s2
    rw [cycle_eq _ _ _ (b1 _ (by decide)), cycle_eq _ _ _ (b2 _ (by decide))]
    exact ⟨incrementPC_byteRAM r1 b1, incrementPC_byteRAM r2 b2,
      incrementPC_agree r1 r2 hag, rfl, rfl⟩

/-- C20: for every byte memory and every stack, one iteration of the loop of
`main` passes opcode 0 to `execute` and changes only the two program-counter
bytes (the state after it is the memory `incrementPC` produces with the stack
unchanged); and for two byte memories that agree on the addresses
`0x3A..0x4F`, whatever their program space holds, the cells `0x3A..0x4F`
(timers, I, program counter, V0..VF) and the stack after any number `n` of
iterations are the same. -/
theorem run_independent_of_program (rnd : Nat → Nat) (r : Nat) (ram ram2 : RAM) (s : Stack)
    (n : Nat) (h1 : ByteRAM ram) (h2 : ByteRAM ram2)
    (h : ∀ a, 0x3a ≤ a → a ≤ 0x4f → ram a = ram2 a) :
    (fetch ram).1 = 0 ∧
    cycle r (ram, s) = ((execute r (fetch ram).2 s 0).2.1, (execute r (fetch ram).2 s 0).2.2) ∧
    (∀ a, a ≠ PROGRAM_COUNTER_H → a ≠ PROGRAM_COUNTER_L → (cycle r (ram, s)).1 a = ram a) ∧
    (cycle r (ram, s)).2 = s ∧
    (∀ a, 0x3a ≤ a → a ≤ 0x4f → (run rnd n (ram, s)).1 a = (run rnd n (ram2, s)).1 a) ∧
    (run rnd n (ram, s)).2 = (run rnd n (ram2, s)).2 := by
  have hL : ram PROGRAM_COUNTER_L < 256 := h1 _ (by decide)
  have hf : (fetch ram).1 = 0 := fetch_instruction_eq_zero ram hL
  have hinv := run_invariant rnd ram ram2 s h1 h2 h n
  refine ⟨hf, ?_, ?_, ?_, hinv.2.2.1, ?_⟩
  · simp only [cycle, step, hf]
  · intro a hH hL2
    rw [cycle_eq r ram s hL]
    exact incrementPC_frame ram a hH hL2
  · rw [cycle_eq r ram s hL]
  · rw [hinv.2.2.2.1, hinv.2.2.2.2]

theorem byteRAM_fetchRAM : ByteRAM fetchRAM := by
  intro a _
  unfold fetchRAM
  split_ifs <;> decide

theorem byteRAM_otherProgramRAM : ByteRAM otherProgramRAM := by
  intro a _
  unfold otherProgramRAM
  split_ifs <;> decide

theorem fetchRAM_agrees_otherProgramRAM :
    ∀ a, 0x3a ≤ a → a ≤ 0x4f → fetchRAM a = otherProgramRAM a := by
  intro a h1 h2
  have n1 : a ≠ 0x200 := by omega
  have n2 : a ≠ 0x201 := by omega
  have n3 : a ≠ 0xFFF := by omega
  simp only [fetchRAM, otherProgramRAM, if_neg n1, if_neg n2, if_neg n3]

theorem run_independent_of_program_witness :
    fetchRAM 0x200 ≠ otherProgramRAM 0x200 ∧
    (fetch fetchRAM).1 = 0 ∧
    (∀ a, 0x3a ≤ a → a ≤ 0x4f →
      (run (fun _ => 0) 3 (fetchRAM, fullStack)).1 a
        = (run (fun _ => 0) 3 (otherProgramRAM, fullStack)).1 a) ∧
    (run (fun _ => 0) 3 (fetchRAM, fullStack)).2
      = (run (fun _ => 0) 3 (otherProgramRAM, fullStack)).2 :=
  have h := run_independent_of_program (fun _ => 0) 0 fetchRAM otherProgramRAM fullStack 3
    byteRAM_fetchRAM byteRAM_otherProgramRAM fetchRAM_agrees_otherProgramRAM
  ⟨by decide, h.1, h.2.2.2.2.1, h.2.2.2.2.2⟩

/-! ## Flags of the remaining arithmetic instructions -/

theorem alu_flag_boolean (rnd : Nat) (ram : RAM) (s : Stack) (X Y k : Nat)
    (hX : X < 16) (hY : Y < 16) (hk : k = 4 ∨ k = 5 ∨ k = 6 ∨ k = 7) :
    (execute rnd ram s (0x8000 + X * 256 + Y * 16 + k)).2.1 VF ≤ 1 := by
  have h8 : ((0x8000 + X * 256 + Y * 16 + k) / 4096) % 16 = 8 := by omega
  have hlow : (0x8000 + X * 256 + Y * 16 + k) % 16 = k := by omega
  rw [execute_alu _ _ _ _ h8]
  simp only [execute8, low_nibble, hlow]
  rcases hk with h | h | h | h <;> subst h <;> simp only []
  · split_ifs <;> simp [setByte]
  · split_ifs <;> simp [setByte]
  · simp only [setByte, if_true]
    exact le_trans (Nat.mod_le _ _) Nat.and_le_right
  · split_ifs <;> simp [setByte]

theorem shift_right_flag (rnd : Nat) (ram : RAM) (s : Stack) (X : Nat)
    (hX : X < 16) (h0 : X ≠ 0) :
    (execute rnd ram s (0x8006 + X * 256)).2.1 VF = ram V0 % 2 := by
  have h8 : ((0x8006 + X * 256) / 4096) % 16 = 8 := by omega
  have hlow : (0x8006 + X * 256) % 16 = 6 := by omega
  have hx : (0x8006 + X * 256) / 256 % 16 = X := by omega
  have hne : V0 ≠ 0x40 + X := by
    show 0x40 ≠ 0x40 + X
    omega
  rw [execute_alu _ _ _ _ h8]
  simp only [execute8, low_nibble, hlow, regX_eq, regY8_eq, hx, setByte, if_true, if_neg hne]
  rw [Nat.and_one_is_mod]
  omega

end Chip8
